import Mathlib

/-!
Verification development for the laxnar-vision-portal detection pipeline
(src/services/yolov5Service.ts and src/hooks/useObjectDetection.ts).

Numbers computed by the code are modelled as exact rational values extended
with the IEEE special values NaN, +Infinity and -Infinity where the
JavaScript arithmetic of the source can actually produce them (division,
0 * Infinity, floor and comparisons involving them). Rounding of IEEE
doubles is idealised away: every claim under study is an algebraic identity
or a control-flow property, not a rounding property.
-/

namespace LaxnarVision

/-- JavaScript number values as used by the pipeline: a finite exact
rational, the two infinities, or NaN. -/
inductive JSVal where
  | finite (q : ℚ)
  | posInf
  | negInf
  | nan
deriving DecidableEq, Repr

/-- JavaScript division of two finite numbers: a nonzero divisor gives the
exact quotient; division by zero gives a signed infinity, and 0/0 gives
NaN. -/
def jsDivQ (a b : ℚ) : JSVal :=
  if b ≠ 0 then .finite (a / b)
  else if 0 < a then .posInf
  else if a < 0 then .negInf
  else .nan

/-- JavaScript addition lifted to JSVal. -/
def jsAdd : JSVal → JSVal → JSVal
  | .nan, _ => .nan
  | _, .nan => .nan
  | .finite a, .finite b => .finite (a + b)
  | .finite _, .posInf => .posInf
  | .posInf, .finite _ => .posInf
  | .finite _, .negInf => .negInf
  | .negInf, .finite _ => .negInf
  | .posInf, .posInf => .posInf
  | .negInf, .negInf => .negInf
  | .posInf, .negInf => .nan
  | .negInf, .posInf => .nan

/-- JavaScript subtraction lifted to JSVal. -/
def jsSub : JSVal → JSVal → JSVal
  | .nan, _ => .nan
  | _, .nan => .nan
  | .finite a, .finite b => .finite (a - b)
  | .finite _, .posInf => .negInf
  | .finite _, .negInf => .posInf
  | .posInf, .finite _ => .posInf
  | .negInf, .finite _ => .negInf
  | .posInf, .posInf => .nan
  | .negInf, .negInf => .nan
  | .posInf, .negInf => .posInf
  | .negInf, .posInf => .negInf

/-- JavaScript multiplication lifted to JSVal; 0 * Infinity is NaN. -/
def jsMul : JSVal → JSVal → JSVal
  | .nan, _ => .nan
  | _, .nan => .nan
  | .finite a, .finite b => .finite (a * b)
  | .finite a, .posInf => if 0 < a then .posInf else if a < 0 then .negInf else .nan
  | .posInf, .finite a => if 0 < a then .posInf else if a < 0 then .negInf else .nan
  | .finite a, .negInf => if 0 < a then .negInf else if a < 0 then .posInf else .nan
  | .negInf, .finite a => if 0 < a then .negInf else if a < 0 then .posInf else .nan
  | .posInf, .posInf => .posInf
  | .posInf, .negInf => .negInf
  | .negInf, .posInf => .negInf
  | .negInf, .negInf => .posInf

/-- JavaScript division lifted to JSVal. -/
def jsDiv : JSVal → JSVal → JSVal
  | .nan, _ => .nan
  | _, .nan => .nan
  | .finite a, .finite b => jsDivQ a b
  | .finite _, .posInf => .finite 0
  | .finite _, .negInf => .finite 0
  | .posInf, .finite b => if 0 ≤ b then .posInf else .negInf
  | .negInf, .finite b => if 0 ≤ b then .negInf else .posInf
  | .posInf, .posInf => .nan
  | .posInf, .negInf => .nan
  | .negInf, .posInf => .nan
  | .negInf, .negInf => .nan

/-- Math.min lifted to JSVal: NaN if either argument is NaN. -/
def jsMin : JSVal → JSVal → JSVal
  | .nan, _ => .nan
  | _, .nan => .nan
  | .finite a, .finite b => .finite (min a b)
  | .finite a, .posInf => .finite a
  | .posInf, .finite a => .finite a
  | .finite _, .negInf => .negInf
  | .negInf, .finite _ => .negInf
  | .posInf, .posInf => .posInf
  | .posInf, .negInf => .negInf
  | .negInf, .posInf => .negInf
  | .negInf, .negInf => .negInf

/-- Math.floor lifted to JSVal: floors a finite value, fixes the
infinities, and propagates NaN. -/
def jsFloor : JSVal → JSVal
  | .finite a => .finite ((⌊a⌋ : ℤ) : ℚ)
  | .posInf => .posInf
  | .negInf => .negInf
  | .nan => .nan

/-- JavaScript comparison a <= b as a boolean; any comparison with NaN is
false. -/
def jsLe : JSVal → JSVal → Bool
  | .nan, _ => false
  | _, .nan => false
  | .finite a, .finite b => decide (a ≤ b)
  | .negInf, _ => true
  | _, .posInf => true
  | .posInf, .finite _ => false
  | .posInf, .negInf => false
  | .finite _, .negInf => false

/-- JavaScript comparison a < b as a boolean; any comparison with NaN is
false. -/
def jsLt : JSVal → JSVal → Bool
  | .nan, _ => false
  | _, .nan => false
  | .finite a, .finite b => decide (a < b)
  | .posInf, _ => false
  | .negInf, .finite _ => true
  | .negInf, .posInf => true
  | .negInf, .negInf => false
  | .finite _, .posInf => true
  | .finite _, .negInf => false

/-- JavaScript comparison v > t against a finite threshold; false when v is
NaN. -/
def jsGtQ (v : JSVal) (t : ℚ) : Bool :=
  match v with
  | .finite a => decide (t < a)
  | .posInf => true
  | .negInf => false
  | .nan => false

/-- Model configuration, from the modelConfig constant of
yolov5Service.ts. The wasm paths and model URL play no role in the
pipeline arithmetic and are omitted. -/
structure ModelConfig where
  inputShape : List ℕ
  scoreThreshold : ℚ
  iouThreshold : ℚ
  classNames : List String
deriving DecidableEq

/-- The modelConfig constant: input shape 1x3x640x640, default confidence
threshold 0.45, default IoU threshold 0.45, and the 80 COCO class names in
source order. -/
def modelConfig : ModelConfig :=
  { inputShape := [1, 3, 640, 640]
    scoreThreshold := 45/100
    iouThreshold := 45/100
    classNames :=
      ["person", "bicycle", "car", "motorcycle", "airplane", "bus", "train",
       "truck", "boat", "traffic light", "fire hydrant", "stop sign",
       "parking meter", "bench", "bird", "cat", "dog", "horse", "sheep",
       "cow", "elephant", "bear", "zebra", "giraffe", "backpack", "umbrella",
       "handbag", "tie", "suitcase", "frisbee", "skis", "snowboard",
       "sports ball", "kite", "baseball bat", "baseball glove", "skateboard",
       "surfboard", "tennis racket", "bottle", "wine glass", "cup", "fork",
       "knife", "spoon", "bowl", "banana", "apple", "sandwich", "orange",
       "broccoli", "carrot", "hot dog", "pizza", "donut", "cake", "chair",
       "couch", "potted plant", "bed", "dining table", "toilet", "tv",
       "laptop", "mouse", "remote", "keyboard", "cell phone", "microwave",
       "oven", "toaster", "sink", "refrigerator", "book", "clock", "vase",
       "scissors", "teddy bear", "hair drier", "toothbrush"] }

/-- A decoded detection, from the DetectionResult interface: box is
(left, top, width, height) in image pixel coordinates. The display color is
produced by Math.random at construction time and plays no role in any
pipeline computation, so it is omitted from the model. -/
structure DetectionResult where
  box : ℚ × ℚ × ℚ × ℚ
  label : String
  confidence : ℚ
deriving DecidableEq, Repr

/-- Intersection over union of two boxes in (left, top, width, height)
form, from calculateIoU of yolov5Service.ts. The early return fires only
when the intersection is strictly empty; otherwise the code divides the
intersection area by the union area with no guard, so two zero-area boxes
produce the JavaScript value 0/0 = NaN. -/
def calculateIoU (box1 box2 : ℚ × ℚ × ℚ × ℚ) : JSVal :=
  let (x1, y1, w1, h1) := box1
  let (x2, y2, w2, h2) := box2
  let box1Right := x1 + w1
  let box1Bottom := y1 + h1
  let box2Right := x2 + w2
  let box2Bottom := y2 + h2
  let intersectLeft := max x1 x2
  let intersectTop := max y1 y2
  let intersectRight := min box1Right box2Right
  let intersectBottom := min box1Bottom box2Bottom
  if intersectRight < intersectLeft ∨ intersectBottom < intersectTop then
    .finite 0
  else
    let intersectArea := (intersectRight - intersectLeft) * (intersectBottom - intersectTop)
    let box1Area := w1 * h1
    let box2Area := w2 * h2
    let unionArea := box1Area + box2Area - intersectArea
    jsDivQ intersectArea unionArea

/-- Stable insertion of a detection into a confidence-descending list:
the new element goes in front of the first strictly less confident element,
hence after all existing elements of equal confidence. -/
def insertByConfidence (b : DetectionResult) : List DetectionResult → List DetectionResult
  | [] => [b]
  | a :: rest =>
      if a.confidence ≤ b.confidence then b :: a :: rest
      else a :: insertByConfidence b rest

/-- Confidence-descending stable sort, modelling the in-place
Array.prototype.sort call with comparator (a, b) => b.confidence -
a.confidence in nonMaxSuppression (sort is stable per the ECMAScript
specification). -/
def sortByConfidence : List DetectionResult → List DetectionResult
  | [] => []
  | b :: rest => insertByConfidence b (sortByConfidence rest)

/-- One greedy pass of the suppression loop of nonMaxSuppression over the
already-sorted candidate list: keep the head, drop every later candidate
with the same label whose IoU with the head exceeds the threshold, recurse
on the rest. The fuel argument makes the recursion structural; it is always
called with fuel at least the list length, which the filter never
increases. -/
def nmsLoop (iouThreshold : ℚ) : ℕ → List DetectionResult → List DetectionResult
  | 0, _ => []
  | _ + 1, [] => []
  | fuel + 1, b :: rest =>
      b :: nmsLoop iouThreshold fuel
        (rest.filter fun o =>
          !(o.label == b.label && jsGtQ (calculateIoU b.box o.box) iouThreshold))

/-- Class-aware non-maximum suppression, from nonMaxSuppression of
yolov5Service.ts: sort by confidence descending (mutating the caller
array), then greedily keep each not-yet-suppressed box and suppress every
later same-label box overlapping it above the IoU threshold. -/
def nonMaxSuppression (boxes : List DetectionResult) (iouThreshold : ℚ) : List DetectionResult :=
  let sorted := sortByConfidence boxes
  nmsLoop iouThreshold sorted.length sorted

/-- Contents of the caller array after nonMaxSuppression returns: the
Array.prototype.sort call inside nonMaxSuppression reorders the argument
array in place and is the only mutation of it, so afterwards the caller
array holds the confidence-descending sort of its previous contents. -/
def nmsArgumentAfterCall (boxes : List DetectionResult) : List DetectionResult :=
  sortByConfidence boxes

/-- One raw output row of the model: box center x, y and size w, h, the
objectness score (flat index 4), and the per-class scores (flat indices 5
and up). -/
structure RawRow where
  x : ℚ
  y : ℚ
  w : ℚ
  h : ℚ
  objectness : ℚ
  classScores : List ℚ
deriving DecidableEq, Repr

/-- The class-score scan of postprocess: running maximum initialised to
score 0 at index 0, updated only on a strict increase, so ties keep the
first occurrence. The index argument j counts from 0 and corresponds to
j - 5 of the flat source loop. -/
def findMaxClassAux : List ℚ → ℕ → ℚ → ℕ → ℚ × ℕ
  | [], _, maxClassScore, maxClassIndex => (maxClassScore, maxClassIndex)
  | s :: rest, j, maxClassScore, maxClassIndex =>
      if maxClassScore < s then findMaxClassAux rest (j + 1) s j
      else findMaxClassAux rest (j + 1) maxClassScore maxClassIndex

/-- Maximum class score and its index for one row, as computed by the inner
loop of postprocess. -/
def findMaxClass (scores : List ℚ) : ℚ × ℕ :=
  findMaxClassAux scores 0 0 0

/-- Decoding of one raw output row by postprocess: objectness filter,
class-score scan, combined-confidence filter, then the coordinate
conversion x * modelWidth * (imgWidth / modelWidth) and the center-form to
top-left conversion. Returns none when either filter rejects the row. -/
def decodeRow (imgWidth imgHeight confidenceThreshold : ℚ) (r : RawRow) : Option DetectionResult :=
  let modelHeight : ℚ := (modelConfig.inputShape.getD 2 0 : ℕ)
  let modelWidth : ℚ := (modelConfig.inputShape.getD 3 0 : ℕ)
  if confidenceThreshold < r.objectness then
    let scan := findMaxClass r.classScores
    let maxClassScore := scan.1
    let maxClassIndex := scan.2
    let combinedScore := r.objectness * maxClassScore
    if confidenceThreshold < combinedScore then
      let imageScaleX := imgWidth / modelWidth
      let imageScaleY := imgHeight / modelHeight
      let x := r.x * modelWidth * imageScaleX
      let y := r.y * modelHeight * imageScaleY
      let width := r.w * modelWidth * imageScaleX
      let height := r.h * modelHeight * imageScaleY
      let left := x - width / 2
      let top := y - height / 2
      some { box := (left, top, width, height)
             label := modelConfig.classNames.getD maxClassIndex ""
             confidence := combinedScore }
    else none
  else none

/-- The candidate-construction stage of postprocess: every raw row passing
both confidence filters contributes one DetectionResult, in row order. -/
def postprocessCandidates (rows : List RawRow) (imgWidth imgHeight confidenceThreshold : ℚ) :
    List DetectionResult :=
  rows.filterMap (decodeRow imgWidth imgHeight confidenceThreshold)

/-- postprocess of yolov5Service.ts: build the candidates and then return
nonMaxSuppression applied to them with the fixed default IoU threshold of
modelConfig — suppression runs inside postprocess, and no caller-supplied
IoU threshold is consulted. -/
def postprocess (rows : List RawRow) (imgWidth imgHeight confidenceThreshold : ℚ) :
    List DetectionResult :=
  nonMaxSuppression (postprocessCandidates rows imgWidth imgHeight confidenceThreshold)
    modelConfig.iouThreshold

/-- The threshold-defaulting expression of detect:
confidenceThreshold || modelConfig.scoreThreshold. A supplied 0 is falsy in
JavaScript, so it is replaced by the default. -/
def jsOrDefault (c d : ℚ) : ℚ :=
  if c = 0 then d else c

/-- The postprocessing call made by detect of yolov5Service.ts, with the
threshold argument confidenceThreshold || modelConfig.scoreThreshold.
Preprocessing and the inference engine call that precede it act only on the
input tensor, not on the raw output rows given here. -/
def detect (rows : List RawRow) (imgWidth imgHeight confidenceThreshold : ℚ) :
    List DetectionResult :=
  postprocess rows imgWidth imgHeight (jsOrDefault confidenceThreshold modelConfig.scoreThreshold)

/-- An input frame, from the ImageData handed to preprocess: pixel grid
dimensions and the flat RGBA byte array, modelled as a function from flat
index to byte value (reads beyond 4 * width * height are the undefined
accesses of JavaScript and are handled in jsIndex). -/
structure Frame where
  width : ℕ
  height : ℕ
  data : ℕ → ℚ

/-- Array read imgData[i] for a computed JSVal index: an in-range
nonnegative-integer index reads the byte; anything else (out of range, NaN,
infinite or fractional index) is an undefined read, which behaves as NaN in
the arithmetic that consumes it. -/
def jsIndex (f : Frame) (v : JSVal) : JSVal :=
  match v with
  | .finite q =>
      if q.den = 1 ∧ 0 ≤ q.num ∧ q.num < 4 * (f.width : ℤ) * (f.height : ℤ) then
        .finite (f.data q.num.toNat)
      else .nan
  | _ => .nan

/-- preprocess of yolov5Service.ts, as the value written at plane c, row y,
column x of the 3x640x640 output buffer: letterbox scale and offsets, the
isInside test, nearest-neighbour sampling normalised by 255 inside the
resized region, and 0 in the padding region. The function never fails: a
zero-sized frame silently yields padding everywhere because every
comparison against the NaN or degenerate offsets is false. -/
def preprocess (f : Frame) (c y x : ℕ) : JSVal :=
  let width : ℚ := 640
  let height : ℚ := 640
  let imgWidth : ℚ := (f.width : ℕ)
  let imgHeight : ℚ := (f.height : ℕ)
  let resizeScale := jsMin (jsDivQ width imgWidth) (jsDivQ height imgHeight)
  let resizedWidth := jsFloor (jsMul (.finite imgWidth) resizeScale)
  let resizedHeight := jsFloor (jsMul (.finite imgHeight) resizeScale)
  let offsetX := jsDiv (jsSub (.finite width) resizedWidth) (.finite 2)
  let offsetY := jsDiv (jsSub (.finite height) resizedHeight) (.finite 2)
  let xv : JSVal := .finite (x : ℕ)
  let yv : JSVal := .finite (y : ℕ)
  let isInside :=
    jsLe offsetX xv && jsLt xv (jsAdd offsetX resizedWidth) &&
    jsLe offsetY yv && jsLt yv (jsAdd offsetY resizedHeight)
  if isInside then
    let origX := jsFloor (jsDiv (jsSub xv offsetX) resizeScale)
    let origY := jsFloor (jsDiv (jsSub yv offsetY) resizeScale)
    let origPos := jsMul (jsAdd (jsMul origY (.finite imgWidth)) origX) (.finite 4)
    jsDiv (jsIndex f (jsAdd origPos (.finite (c : ℕ)))) (.finite 255)
  else
    .finite 0

/-- A raw row decoding to a person box (0, 0, 10, 10) with combined
confidence 0.92 at image size 640x640. -/
def rowA : RawRow := ⟨1/128, 1/128, 1/64, 1/64, 1, [92/100]⟩

/-- A raw row decoding to a person box (0, 0, 10, 6) with combined
confidence 0.7 at image size 640x640; its IoU with the rowA box is 0.6. -/
def rowB : RawRow := ⟨1/128, 3/640, 1/64, 3/320, 1, [7/10]⟩

/-- The detection decoded from rowA. -/
def detA : DetectionResult := ⟨(0, 0, 10, 10), "person", 92/100⟩

/-- The detection decoded from rowB. -/
def detB : DetectionResult := ⟨(0, 0, 10, 6), "person", 7/10⟩

/-- A raw row with objectness 0.4 and class score 0.5: it passes a zero
confidence threshold but not the default 0.45. -/
def rowC : RawRow := ⟨1/128, 1/128, 1/64, 1/64, 2/5, [1/2]⟩

/-- A raw row with objectness 0.9, unique maximum class score 0.9 at index
1 (bicycle), and a zero-size box centered at raw (1/2, 1/2). -/
def rowD : RawRow := ⟨1/2, 1/2, 0, 0, 9/10, [2/10, 9/10, 1/10]⟩

/-- A low-confidence detection used to exhibit the in-place reordering. -/
def detLow : DetectionResult := ⟨(0, 0, 1, 1), "cat", 1/10⟩

/-- A high-confidence detection used to exhibit the in-place reordering. -/
def detHigh : DetectionResult := ⟨(5, 5, 1, 1), "dog", 9/10⟩

/-- A frame of width 0 and height 0. -/
def zeroFrame : Frame := ⟨0, 0, fun _ => 0⟩

end LaxnarVision

namespace LaxnarVision

theorem insertByConfidence_perm (b : DetectionResult) (l : List DetectionResult) :
    (insertByConfidence b l).Perm (b :: l) := by
  induction l with
  | nil => simp [insertByConfidence]
  | cons a rest ih =>
      by_cases h : a.confidence ≤ b.confidence
      · simp [insertByConfidence, h]
      · simp only [insertByConfidence, if_neg h]
        exact (ih.cons a).trans (List.Perm.swap b a rest)

theorem sortByConfidence_perm (l : List DetectionResult) :
    (sortByConfidence l).Perm l := by
  induction l with
  | nil => simp [sortByConfidence]
  | cons a rest ih =>
      exact (insertByConfidence_perm a (sortByConfidence rest)).trans (ih.cons a)

theorem mem_sortByConfidence {a : DetectionResult} {l : List DetectionResult} :
    a ∈ sortByConfidence l ↔ a ∈ l :=
  (sortByConfidence_perm l).mem_iff

theorem insertByConfidence_pairwise {b : DetectionResult} {l : List DetectionResult}
    (hl : l.Pairwise (fun a c => c.confidence ≤ a.confidence)) :
    (insertByConfidence b l).Pairwise (fun a c => c.confidence ≤ a.confidence) := by
  induction l with
  | nil => simp [insertByConfidence]
  | cons a rest ih =>
      rcases List.pairwise_cons.mp hl with ⟨ha, hrest⟩
      by_cases h : a.confidence ≤ b.confidence
      · simp only [insertByConfidence, if_pos h]
        refine List.pairwise_cons.mpr ⟨?_, hl⟩
        intro z hz
        rcases List.mem_cons.mp hz with rfl | hz
        · exact h
        · exact le_trans (ha z hz) h
      · simp only [insertByConfidence, if_neg h]
        refine List.pairwise_cons.mpr ⟨?_, ih hrest⟩
        intro z hz
        have hz' : z = b ∨ z ∈ rest := by
          simpa using (insertByConfidence_perm b rest).mem_iff.mp hz
        rcases hz' with rfl | hz'
        · exact le_of_lt (lt_of_not_le h)
        · exact ha z hz'

theorem sortByConfidence_pairwise (l : List DetectionResult) :
    (sortByConfidence l).Pairwise (fun a c => c.confidence ≤ a.confidence) := by
  induction l with
  | nil => simp [sortByConfidence]
  | cons a rest ih => exact insertByConfidence_pairwise ih

theorem nmsLoop_subset (t : ℚ) (fuel : ℕ) (l : List DetectionResult) :
    ∀ a ∈ nmsLoop t fuel l, a ∈ l := by
  induction fuel generalizing l with
  | zero => simp [nmsLoop]
  | succ n ih =>
      cases l with
      | nil => simp [nmsLoop]
      | cons b rest =>
          intro a ha
          rcases List.mem_cons.mp ha with rfl | ha
          · exact List.mem_cons_self a rest
          · exact List.mem_cons_of_mem b (List.mem_of_mem_filter (ih _ a ha))

theorem nmsLoop_suppressed (t : ℚ) (fuel : ℕ) (l : List DetectionResult)
    (hfuel : l.length ≤ fuel) :
    ∀ b ∈ l, b ∉ nmsLoop t fuel l →
      ∃ k ∈ nmsLoop t fuel l, k.label = b.label ∧
        jsGtQ (calculateIoU k.box b.box) t = true := by
  induction fuel generalizing l with
  | zero =>
      intro b hb _
      rw [List.length_eq_zero.mp (Nat.le_zero.mp hfuel)] at hb
      simp at hb
  | succ n ih =>
      intro b hb hnot
      cases l with
      | nil => simp at hb
      | cons hd rest =>
          have hout : nmsLoop t (n + 1) (hd :: rest) =
              hd :: nmsLoop t n (rest.filter fun o =>
                !(o.label == hd.label && jsGtQ (calculateIoU hd.box o.box) t)) := rfl
          rw [hout] at hnot ⊢
          have hne : b ≠ hd := fun h => hnot (h ▸ List.mem_cons_self hd _)
          have hnotin : b ∉ nmsLoop t n (rest.filter fun o =>
              !(o.label == hd.label && jsGtQ (calculateIoU hd.box o.box) t)) :=
            fun h => hnot (List.mem_cons_of_mem hd h)
          have hbrest : b ∈ rest := (List.mem_cons.mp hb).resolve_left hne
          by_cases hmem : b ∈ rest.filter fun o =>
              !(o.label == hd.label && jsGtQ (calculateIoU hd.box o.box) t)
          · have hlen : (rest.filter fun o =>
                !(o.label == hd.label && jsGtQ (calculateIoU hd.box o.box) t)).length ≤ n :=
              le_trans (List.length_filter_le _ _) (Nat.succ_le_succ_iff.mp hfuel)
            obtain ⟨k, hk, hlab, hiou⟩ := ih _ hlen b hmem hnotin
            exact ⟨k, List.mem_cons_of_mem hd hk, hlab, hiou⟩
          · have hpred : ¬((!(b.label == hd.label && jsGtQ (calculateIoU hd.box b.box) t)) = true) :=
              fun hp => hmem (List.mem_filter.mpr ⟨hbrest, hp⟩)
            have hand : (b.label == hd.label && jsGtQ (calculateIoU hd.box b.box) t) = true := by
              revert hpred
              cases b.label == hd.label && jsGtQ (calculateIoU hd.box b.box) t <;> simp
            rcases Bool.and_eq_true_iff.mp hand with ⟨hlab, hiou⟩
            exact ⟨hd, List.mem_cons_self hd _, (eq_of_beq hlab).symm, hiou⟩

theorem nmsLoop_pairwise (t : ℚ) (fuel : ℕ) (l : List DetectionResult)
    (hl : l.Pairwise (fun a c => c.confidence ≤ a.confidence)) :
    (nmsLoop t fuel l).Pairwise (fun a c => c.confidence ≤ a.confidence) := by
  induction fuel generalizing l with
  | zero => simp [nmsLoop]
  | succ n ih =>
      cases l with
      | nil => simp [nmsLoop]
      | cons hd rest =>
          rcases List.pairwise_cons.mp hl with ⟨hhd, hrest⟩
          refine List.pairwise_cons.mpr ⟨?_, ih _ (hrest.filter _)⟩
          intro z hz
          exact hhd z (List.mem_of_mem_filter (nmsLoop_subset t n _ z hz))

theorem pairwise_ne_label_eq {l : List DetectionResult}
    (hp : l.Pairwise (fun a c => a.label ≠ c.label)) :
    ∀ a ∈ l, ∀ c ∈ l, a.label = c.label → a = c := by
  induction l with
  | nil => simp
  | cons hd rest ih =>
      rcases List.pairwise_cons.mp hp with ⟨hhd, hrest⟩
      intro a ha c hc heq
      rcases List.mem_cons.mp ha with ha1 | ha1 <;> rcases List.mem_cons.mp hc with hc1 | hc1
      · rw [ha1, hc1]
      · rw [ha1] at heq ⊢; exact absurd heq (hhd c hc1)
      · rw [hc1] at heq ⊢; exact absurd heq.symm (hhd a ha1)
      · exact ih hrest a ha1 c hc1 heq

theorem nonMaxSuppression_eq (boxes : List DetectionResult) (t : ℚ) :
    nonMaxSuppression boxes t =
      nmsLoop t (sortByConfidence boxes).length (sortByConfidence boxes) := rfl

/-- C6: nonMaxSuppression is class-aware: every candidate absent from the
output was suppressed by a kept candidate of the same label whose IoU with
it exceeds the threshold, so no candidate is ever discarded for overlap
with a differently-labelled candidate; and when all candidate labels are
pairwise distinct, every candidate is kept regardless of overlap. -/
theorem nonMaxSuppression_class_isolation (boxes : List DetectionResult) (t : ℚ) :
    (∀ b ∈ boxes, b ∉ nonMaxSuppression boxes t →
        ∃ k ∈ nonMaxSuppression boxes t, k.label = b.label ∧
          jsGtQ (calculateIoU k.box b.box) t = true) ∧
    (boxes.Pairwise (fun a c => a.label ≠ c.label) →
        ∀ b ∈ boxes, b ∈ nonMaxSuppression boxes t) := by
  have hmain : ∀ b ∈ boxes, b ∉ nonMaxSuppression boxes t →
      ∃ k ∈ nonMaxSuppression boxes t, k.label = b.label ∧
        jsGtQ (calculateIoU k.box b.box) t = true := by
    intro b hb hnot
    rw [nonMaxSuppression_eq] at hnot ⊢
    exact nmsLoop_suppressed t _ _ le_rfl b (mem_sortByConfidence.mpr hb) hnot
  refine ⟨hmain, ?_⟩
  intro hpw b hb
  by_contra hnot
  obtain ⟨k, hk, hlab, _⟩ := hmain b hb hnot
  have hkb : k ∈ boxes := by
    rw [nonMaxSuppression_eq] at hk
    exact mem_sortByConfidence.mp (nmsLoop_subset t _ _ k hk)
  exact hnot ((pairwise_ne_label_eq hpw k hkb b hb hlab) ▸ hk)

/-- Witness for the C6 theorem: with the two overlapping person boxes detA
(confidence 0.92) and detB (confidence 0.7), IoU 0.6 and threshold 0.45,
detB is suppressed and the suppressor detA has the same label and IoU above
the threshold. -/
theorem nonMaxSuppression_class_isolation_witness :
    ∃ k ∈ nonMaxSuppression [detA, detB] (45/100), k.label = detB.label ∧
      jsGtQ (calculateIoU k.box detB.box) (45/100) = true :=
  (nonMaxSuppression_class_isolation [detA, detB] (45/100)).1 detB (by simp)
    (by norm_num [nonMaxSuppression, sortByConfidence, insertByConfidence, nmsLoop, detA, detB,
      calculateIoU, jsDivQ, jsGtQ, List.filter])

/-- C2 counterexample: at image size 640x640 and threshold 0.45 both rows
rowA and rowB pass the objectness and combined-confidence filters (two
candidates are built), yet postprocess returns only one detection, because
it applies suppression internally before returning. -/
theorem postprocess_not_presuppression_counterexample :
    (postprocessCandidates [rowA, rowB] 640 640 (45/100)).length = 2 ∧
    (postprocess [rowA, rowB] 640 640 (45/100)).length = 1 := by
  constructor
  · norm_num [postprocessCandidates, List.filterMap_cons, decodeRow, findMaxClass,
      findMaxClassAux, rowA, rowB, modelConfig]
  · norm_num [postprocess, postprocessCandidates, List.filterMap_cons, decodeRow, findMaxClass,
      findMaxClassAux, rowA, rowB, modelConfig, nonMaxSuppression, sortByConfidence,
      insertByConfidence, nmsLoop, calculateIoU, jsDivQ, jsGtQ, List.filter]

/-- C2 amended: postprocess does apply suppression before returning — its
result is nonMaxSuppression of the candidate list at the fixed default IoU
threshold, and is therefore confidence-descending, not the pre-suppression
candidate sequence. -/
theorem postprocess_post_suppression (rows : List RawRow) (imgWidth imgHeight ct : ℚ) :
    postprocess rows imgWidth imgHeight ct =
      nonMaxSuppression (postprocessCandidates rows imgWidth imgHeight ct)
        modelConfig.iouThreshold ∧
    (postprocess rows imgWidth imgHeight ct).Pairwise
      (fun a c => c.confidence ≤ a.confidence) := by
  refine ⟨rfl, ?_⟩
  exact nmsLoop_pairwise _ _ _ (sortByConfidence_pairwise _)

/-- C4 counterexample: had the suppression step used a consumer-supplied
IoU threshold of 0.9, both candidates would have been kept; postprocess
keeps only one, because it always passes the fixed modelConfig default 0.45
to nonMaxSuppression. -/
theorem consumer_iou_threshold_counterexample :
    postprocess [rowA, rowB] 640 640 (45/100) = [detA] ∧
    nonMaxSuppression (postprocessCandidates [rowA, rowB] 640 640 (45/100)) (9/10) =
      [detA, detB] := by
  constructor
  · norm_num [postprocess, postprocessCandidates, List.filterMap_cons, decodeRow, findMaxClass,
      findMaxClassAux, rowA, rowB, detA, detB, modelConfig, nonMaxSuppression, sortByConfidence,
      insertByConfidence, nmsLoop, calculateIoU, jsDivQ, jsGtQ, List.filter]
  · norm_num [postprocessCandidates, List.filterMap_cons, decodeRow, findMaxClass,
      findMaxClassAux, rowA, rowB, detA, detB, modelConfig, nonMaxSuppression, sortByConfidence,
      insertByConfidence, nmsLoop, calculateIoU, jsDivQ, jsGtQ, List.filter]

/-- C4 amended: for every detection tick the suppression step runs with the
fixed default IoU threshold 0.45 from modelConfig; no consumer-supplied IoU
threshold is plumbed into it (the useObjectDetection hook has no such
parameter and postprocess passes the constant). -/
theorem suppression_uses_fixed_default (rows : List RawRow) (imgWidth imgHeight ct : ℚ) :
    postprocess rows imgWidth imgHeight ct =
      nonMaxSuppression (postprocessCandidates rows imgWidth imgHeight ct) (45/100) ∧
    modelConfig.iouThreshold = 45/100 :=
  ⟨rfl, rfl⟩

/-- C10: the Array.prototype.sort call inside nonMaxSuppression reorders
the caller array in place: after every call the argument array holds a
confidence-descending permutation of the candidates, and on the concrete
list [detLow, detHigh] the contents are no longer in their original
order. -/
theorem nms_reorders_argument_in_place :
    (∀ boxes : List DetectionResult,
        (nmsArgumentAfterCall boxes).Pairwise (fun a c => c.confidence ≤ a.confidence) ∧
        (nmsArgumentAfterCall boxes).Perm boxes) ∧
    nmsArgumentAfterCall [detLow, detHigh] ≠ [detLow, detHigh] := by
  refine ⟨fun boxes => ⟨sortByConfidence_pairwise boxes, sortByConfidence_perm boxes⟩, ?_⟩
  norm_num [nmsArgumentAfterCall, sortByConfidence, insertByConfidence, detLow, detHigh]

/-- C9: detect replaces a supplied confidence threshold of 0 by the
fallback value 0.45 (the JavaScript or-expression treats 0 as absent), so
calling detect
with threshold 0 behaves exactly like threshold 0.45, and a row passing a
genuine zero threshold (rowC, objectness 0.4) is dropped by detect. -/
theorem detect_zero_threshold_uses_default (rows : List RawRow) (imgWidth imgHeight : ℚ) :
    detect rows imgWidth imgHeight 0 = postprocess rows imgWidth imgHeight (45/100) ∧
    detect [rowC] 640 640 0 = [] ∧
    postprocess [rowC] 640 640 0 ≠ [] := by
  refine ⟨?_, ?_, ?_⟩
  · simp [detect, jsOrDefault, modelConfig]
  · norm_num [detect, jsOrDefault, postprocess, postprocessCandidates, List.filterMap_cons,
      decodeRow, findMaxClass, findMaxClassAux, rowC, modelConfig, nonMaxSuppression,
      sortByConfidence, insertByConfidence, nmsLoop]
  · norm_num [postprocess, postprocessCandidates, List.filterMap_cons, decodeRow, findMaxClass,
      findMaxClassAux, rowC, modelConfig, nonMaxSuppression, sortByConfidence, insertByConfidence,
      nmsLoop, calculateIoU, jsDivQ, jsGtQ]

/-- C3: at the failing input of two zero-area boxes, calculateIoU reaches
the division 0/0 and produces NaN — the code has no guard returning 0 when
the union area is 0. -/
theorem calculateIoU_zero_union_nan :
    calculateIoU (0, 0, 0, 0) (0, 0, 0, 0) = JSVal.nan := by
  norm_num [calculateIoU, jsDivQ]

/-- C8 counterexample: the zero-area box (0, 0, 0, 0) has non-negative
width and height, yet calculateIoU of the box with itself is NaN, not 1. -/
theorem calculateIoU_self_counterexample :
    calculateIoU (0, 0, 0, 0) (0, 0, 0, 0) ≠ JSVal.finite 1 := by
  have h1 : calculateIoU (0, 0, 0, 0) (0, 0, 0, 0) = JSVal.nan := by
    norm_num [calculateIoU, jsDivQ]
  rw [h1]
  exact fun h => JSVal.noConfusion h

/-- C8 amended: for every box with positive width and height, the IoU of
the box with itself is 1. -/
theorem calculateIoU_self (x y w h : ℚ) (hw : 0 < w) (hh : 0 < h) :
    calculateIoU (x, y, w, h) (x, y, w, h) = JSVal.finite 1 := by
  unfold calculateIoU
  simp only [max_self, min_self]
  rw [if_neg]
  · have harea : (x + w - x) * (y + h - y) = w * h := by ring
    rw [harea]
    have hne : w * h ≠ 0 := by positivity
    have hunion : w * h + w * h - w * h = w * h := by ring
    rw [hunion]
    unfold jsDivQ
    rw [if_pos hne]
    exact congrArg JSVal.finite (div_self hne)
  · push_neg
    constructor <;> linarith

/-- Witness for the C8 amended theorem at the box (1, 2, 3, 4). -/
theorem calculateIoU_self_witness :
    calculateIoU (1, 2, 3, 4) (1, 2, 3, 4) = JSVal.finite 1 :=
  calculateIoU_self 1 2 3 4 (by norm_num) (by norm_num)

/-- C1 counterexample: for rowD (raw center x = 1/2, zero box size) at
image size 1280x720 the decoded center x (equal to the left edge since the
width is 0) is 640 = rawX * imgWidth, not rawX * imgWidth / modelWidth,
which would be 1. -/
theorem decode_rescale_counterexample :
    (postprocessCandidates [rowD] 1280 720 (45/100)).map (fun d => d.box) =
      [(640, 360, 0, 0)] ∧
    (640 : ℚ) ≠ 1/2 * 1280 / 640 := by
  constructor
  · norm_num [postprocessCandidates, List.filterMap_cons, decodeRow, findMaxClass,
      findMaxClassAux, rowD, modelConfig]
  · norm_num

/-- C1 amended: whenever decodeRow emits a detection, its box is
(rx * imgWidth - rw * imgWidth / 2, ry * imgHeight - rh * imgHeight / 2,
rw * imgWidth, rh * imgHeight): the code first multiplies each raw axis
value by the model input dimension and only then by the ratio
imageDimension/modelInputDimension, so the net per-axis scale is the image
dimension itself, not the ratio. -/
theorem decodeRow_box_formula (imgWidth imgHeight ct : ℚ) (r : RawRow) (d : DetectionResult)
    (hd : decodeRow imgWidth imgHeight ct r = some d) :
    d.box = (r.x * imgWidth - r.w * imgWidth / 2, r.y * imgHeight - r.h * imgHeight / 2,
      r.w * imgWidth, r.h * imgHeight) := by
  have h2 : ((modelConfig.inputShape.getD 2 0 : ℕ) : ℚ) = 640 := by
    have h : modelConfig.inputShape.getD 2 0 = 640 := rfl
    rw [h]; norm_num
  have h3 : ((modelConfig.inputShape.getD 3 0 : ℕ) : ℚ) = 640 := by
    have h : modelConfig.inputShape.getD 3 0 = 640 := rfl
    rw [h]; norm_num
  simp only [decodeRow, h2, h3] at hd
  split at hd
  · split at hd
    · have hbox := congrArg DetectionResult.box (Option.some.inj hd)
      rw [← hbox]
      simp only [Prod.mk.injEq]
      refine ⟨by ring, by ring, by ring, by ring⟩
    · exact absurd hd (by simp)
  · exact absurd hd (by simp)

theorem findMaxClassAux_no_update (l : List ℚ) (best : ℚ)
    (h : ∀ s ∈ l, ¬ best < s) :
    ∀ (j bidx : ℕ), findMaxClassAux l j best bidx = (best, bidx) := by
  induction l with
  | nil => intro j bidx; rfl
  | cons s rest ih =>
      intro j bidx
      simp only [findMaxClassAux]
      rw [if_neg (h s (List.mem_cons_self s rest))]
      exact ih (fun z hz => h z (List.mem_cons_of_mem s hz)) (j + 1) bidx

theorem findMaxClassAux_unique_max (v : ℚ) (l : List ℚ) :
    ∀ (k : ℕ) (hk : k < l.length), l.get ⟨k, hk⟩ = v →
      (∀ i (hi : i < l.length), i ≠ k → l.get ⟨i, hi⟩ < v) →
      ∀ (j : ℕ) (best : ℚ) (bidx : ℕ), best < v →
        findMaxClassAux l j best bidx = (v, j + k) := by
  induction l with
  | nil => intro k hk; exact absurd hk (by simp)
  | cons s rest ih =>
      intro k hk hget hothers j best bidx hbest
      cases k with
      | zero =>
          have hs : s = v := hget
          simp only [findMaxClassAux]
          rw [if_pos (hs ▸ hbest)]
          have hrest : ∀ z ∈ rest, ¬ s < z := by
            intro z hz
            obtain ⟨⟨n, hn⟩, hzeq⟩ := List.mem_iff_get.mp hz
            have hlt : rest.get ⟨n, hn⟩ < v :=
              hothers (n + 1) (Nat.succ_lt_succ hn) (Nat.succ_ne_zero n)
            rw [hzeq] at hlt
            rw [hs]
            exact not_lt_of_gt hlt
          rw [findMaxClassAux_no_update rest s hrest (j + 1) j, hs, Nat.add_zero]
      | succ m =>
          have hs : s < v := hothers 0 (Nat.succ_pos _) (Nat.succ_ne_zero m).symm
          have hk' : m < rest.length := Nat.lt_of_succ_lt_succ hk
          have hget' : rest.get ⟨m, hk'⟩ = v := hget
          have hothers' : ∀ i (hi : i < rest.length), i ≠ m → rest.get ⟨i, hi⟩ < v :=
            fun i hi hne => hothers (i + 1) (Nat.succ_lt_succ hi) (by omega)
          simp only [findMaxClassAux]
          by_cases hb : best < s
          · rw [if_pos hb, ih m hk' hget' hothers' (j + 1) s j hs]
            have harith : j + 1 + m = j + (m + 1) := by omega
            rw [harith]
          · rw [if_neg hb, ih m hk' hget' hothers' (j + 1) best bidx hbest]
            have harith : j + 1 + m = j + (m + 1) := by omega
            rw [harith]

theorem findMaxClass_unique_max {scores : List ℚ} {k : ℕ} {v : ℚ} (hk : k < scores.length)
    (hget : scores.get ⟨k, hk⟩ = v) (hpos : 0 < v)
    (hothers : ∀ i (hi : i < scores.length), i ≠ k → scores.get ⟨i, hi⟩ < v) :
    findMaxClass scores = (v, k) := by
  have h := findMaxClassAux_unique_max v scores k hk hget hothers 0 0 0 hpos
  rw [Nat.zero_add] at h
  exact h

/-- C7: a raw output of one row with objectness 0.9 and a unique maximum
class score 0.9 at index k (every other class score strictly below it)
yields, at confidence threshold 0.45, exactly one candidate detection,
whose confidence is 0.9 * 0.9 = 0.81 and whose label is the class name at
index k. -/
theorem postprocess_single_row_single_class (r : RawRow) (imgWidth imgHeight : ℚ) (k : ℕ)
    (hobj : r.objectness = 9/10) (hk : k < r.classScores.length)
    (hget : r.classScores.get ⟨k, hk⟩ = 9/10)
    (hothers : ∀ i (hi : i < r.classScores.length), i ≠ k → r.classScores.get ⟨i, hi⟩ < 9/10) :
    (postprocess [r] imgWidth imgHeight (45/100)).map (fun d => (d.label, d.confidence)) =
      [(modelConfig.classNames.getD k "", 81/100)] := by
  have hmax : findMaxClass r.classScores = (9/10, k) :=
    findMaxClass_unique_max hk hget (by norm_num) hothers
  simp only [postprocess, postprocessCandidates, List.filterMap_cons, List.filterMap_nil,
    decodeRow, hmax, hobj]
  norm_num [nonMaxSuppression, sortByConfidence, insertByConfidence, nmsLoop]

/-- Witness for the C7 theorem at rowD (class scores [0.2, 0.9, 0.1],
maximum at index 1, class name "bicycle"). -/
theorem postprocess_single_row_single_class_witness :
    (postprocess [rowD] 1280 720 (45/100)).map (fun d => (d.label, d.confidence)) =
      [(modelConfig.classNames.getD 1 "", 81/100)] :=
  postprocess_single_row_single_class rowD 1280 720 1 rfl (by norm_num [rowD]) rfl
    (by
      intro i hi hne
      have hlen : rowD.classScores.length = 3 := rfl
      rw [hlen] at hi
      match i, hne, hi with
      | 0, _, hi =>
          have h0 : rowD.classScores.get ⟨0, by rw [hlen]; omega⟩ = 2/10 := rfl
          rw [h0]; norm_num
      | 1, hne, _ => exact absurd rfl hne
      | 2, _, hi =>
          have h2 : rowD.classScores.get ⟨2, by rw [hlen]; omega⟩ = 1/10 := rfl
          rw [h2]; norm_num)

/-- Witness for the C1 amended theorem at rowD and image size 1280x720. -/
theorem decodeRow_box_formula_witness :
    (⟨(640, 360, 0, 0), "bicycle", 81/100⟩ : DetectionResult).box =
      (rowD.x * 1280 - rowD.w * 1280 / 2, rowD.y * 720 - rowD.h * 720 / 2,
        rowD.w * 1280, rowD.h * 720) :=
  decodeRow_box_formula 1280 720 (45/100) rowD ⟨(640, 360, 0, 0), "bicycle", 81/100⟩
    (by norm_num [decodeRow, findMaxClass, findMaxClassAux, rowD, modelConfig])

/-- C5: preprocess performs no zero-size check: for every frame whose width
or height is 0, every entry of the produced buffer is the padding value 0
and the function silently returns that buffer instead of failing with an
InvalidInput error — the letterbox division by the zero dimension yields
Infinity, the derived offsets are degenerate or NaN, and every isInside
comparison is false, so the padding branch is taken at every pixel. -/
theorem preprocess_zero_size_silent (f : Frame) (h : f.width = 0 ∨ f.height = 0)
    (c y x : ℕ) : preprocess f c y x = JSVal.finite 0 := by
  rcases h with h0 | h0
  · cases hh : f.height with
    | zero =>
        simp [preprocess, h0, hh, jsDivQ, jsMin, jsMul, jsFloor, jsSub, jsDiv, jsAdd, jsLe, jsLt]
    | succ m =>
        have hmne : ((m : ℚ) + 1) ≠ 0 := by positivity
        simp only [preprocess]
        split
        · next hinside =>
            exfalso
            simp [h0, hh, jsDivQ, jsMin, jsMul, jsFloor, jsSub, jsDiv, jsAdd, jsLe, jsLt, hmne]
              at hinside
            obtain ⟨⟨⟨hA, hB⟩, _⟩, _⟩ := hinside
            linarith
        · rfl
  · cases hw : f.width with
    | zero =>
        simp [preprocess, h0, hw, jsDivQ, jsMin, jsMul, jsFloor, jsSub, jsDiv, jsAdd, jsLe, jsLt]
    | succ m =>
        have hmne : ((m : ℚ) + 1) ≠ 0 := by positivity
        simp only [preprocess]
        split
        · next hinside =>
            exfalso
            simp [h0, hw, jsDivQ, jsMin, jsMul, jsFloor, jsSub, jsDiv, jsAdd, jsLe, jsLt, hmne]
              at hinside
            obtain ⟨⟨_, hC⟩, hD⟩ := hinside
            linarith
        · rfl

/-- Witness for the C5 theorem: one buffer entry of the 0x0 frame. -/
theorem preprocess_zero_size_silent_witness :
    preprocess zeroFrame 0 5 7 = JSVal.finite 0 :=
  preprocess_zero_size_silent zeroFrame (Or.inl rfl) 0 5 7

end LaxnarVision
